import Mathlib

/-
  Verification of the Anchor frontend crypto core.

  Shallow embedding of:
    frontend/src/lib/crypto/encrypt.ts  (envelope encryption for the vault)
    frontend/src/lib/crypto/did.ts      (base58btc, did:key derivation, sign/verify)
    frontend/src/app/dashboard/recovery/page.tsx (handleAddRole signature construction)

  Byte strings are modeled as List Nat (a JS Uint8Array entry is a byte; the
  theorems that depend on byte ranges carry explicit bounds as hypotheses).
  JS strings are modeled as List Char.  Functions that can throw in JS are
  modeled in the Except monad over JsError.

  The TweetNaCl primitives (XSalsa20-Poly1305 secretbox, Ed25519 sign) are an
  external library; they are modeled here as ideal authenticated primitives
  that keep the exact length arithmetic and the exact throwing behavior of the
  library wrappers (length checks and their error messages), while the cipher
  core is replaced by an ideal functionality: authentication succeeds exactly
  when the same key, nonce and payload were used.  Entries of tags and
  signatures are unbounded naturals carrying an injective encoding of the
  authenticated data; this is a standard symbolic idealization of an AEAD and
  of an EUF-CMA signature and is flagged at each definition.
-/

namespace Anchor

/-- Model of a thrown JS exception: a plain `Error`, a `TypeError`, or the
`DecryptionError` subclass declared in encrypt.ts (lines 76-81). -/
inductive JsError
  | error (message : String)
  | typeError (message : String)
  | decryptionError (message : String)
deriving DecidableEq

instance {ε α : Type} [DecidableEq ε] [DecidableEq α] : DecidableEq (Except ε α) :=
  fun x y =>
    match x, y with
    | .ok a, .ok b =>
      if h : a = b then isTrue (by rw [h]) else isFalse (fun hh => h (Except.ok.inj hh))
    | .ok _, .error _ => isFalse (fun hh => Except.noConfusion hh)
    | .error _, .ok _ => isFalse (fun hh => Except.noConfusion hh)
    | .error a, .error b =>
      if h : a = b then isTrue (by rw [h]) else isFalse (fun hh => h (Except.error.inj hh))

/-- The `error instanceof DecryptionError` test from encrypt.ts line 100. -/
def JsError.isDecryptionError : JsError → Bool
  | .decryptionError _ => true
  | _ => false

/-- The `.message` property of a JS Error. -/
def JsError.message : JsError → String
  | .error m => m
  | .typeError m => m
  | .decryptionError m => m

/-- A JS string used as a base64 payload: either the valid encoding of a byte
string or a string that is not valid base64.  tweetnacl-util encodeBase64 and
decodeBase64 are modeled symbolically at exactly the granularity the code
observes: encode-then-decode is the identity and decoding an invalid string
throws `TypeError("invalid encoding")`. -/
inductive B64
  | valid (bytes : List Nat)
  | invalid (s : String)
deriving DecidableEq

/-- Model of tweetnacl-util `encodeBase64`. -/
def encodeBase64 (bytes : List Nat) : B64 := B64.valid bytes

/-- Model of tweetnacl-util `decodeBase64`: its validateBase64 helper throws
`TypeError("invalid encoding")` on a string that is not valid base64. -/
def decodeBase64 : B64 → Except JsError (List Nat)
  | .valid bytes => .ok bytes
  | .invalid _ => .error (.typeError "invalid encoding")

/-- Injective numeric fingerprint of a byte string: base-257 value of the
digits shifted by one (so that no digit is zero and leading entries are not
lost).  Injective on lists whose entries are bytes (< 256); used to build the
ideal AEAD tags and ideal signatures below. -/
def val257 (l : List Nat) : Nat := l.foldl (fun a x => a * 257 + (x + 1)) 0

/-- Ideal 16-entry Poly1305 tag for key `k`, nonce `n`, message `m`:
authentication data embedded injectively.  The 16-entry length matches the
real `crypto_secretbox` overhead so all length arithmetic in the wrappers is
faithful to TweetNaCl. -/
def secretboxTag (k n m : List Nat) : List Nat :=
  val257 k :: val257 n :: val257 m :: List.replicate 13 0

/-- Ideal model of `nacl.secretbox(msg, nonce, key)`.  TweetNaCl checkLengths
throws `Error("bad key size")` when the key is not 32 bytes and
`Error("bad nonce size")` when the nonce is not 24 bytes; the output is
16 tag entries followed by the message (real output length = msg length + 16). -/
def nacl_secretbox (m n k : List Nat) : Except JsError (List Nat) :=
  if k.length ≠ 32 then .error (.error "bad key size")
  else if n.length ≠ 24 then .error (.error "bad nonce size")
  else .ok (secretboxTag k n m ++ m)

/-- Ideal model of `nacl.secretbox.open(box, nonce, key)`.  Same length checks
as `nacl.secretbox`; returns `null` (here `none`) when the box is shorter than
the 16-byte overhead or when authentication fails, i.e. when the box was not
produced with exactly this key and nonce. -/
def nacl_secretbox_open (c n k : List Nat) : Except JsError (Option (List Nat)) :=
  if k.length ≠ 32 then .error (.error "bad key size")
  else if n.length ≠ 24 then .error (.error "bad nonce size")
  else if c.length < 16 then .ok none
  else if c.take 16 = secretboxTag k n (c.drop 16) then .ok (some (c.drop 16))
  else .ok none

/-- Ideal 64-entry Ed25519 signature of message `m` under the public key `pk`:
the key and the message are embedded injectively.  The 64-entry length matches
`nacl.sign.signatureLength` so the slice arithmetic of the wrappers is
faithful. -/
def idealSig (pk m : List Nat) : List Nat :=
  val257 pk :: val257 m :: List.replicate 62 0

/-- Ideal model of `nacl.sign(msg, secretKey)`.  TweetNaCl throws
`Error("bad secret key size")` when the secret key is not 64 bytes; the result
is the 64-byte signature followed by the message.  As in TweetNaCl the public
key occupies the upper 32 bytes of the secret key and is what the signature
verifies against. -/
def nacl_sign (m sk : List Nat) : Except JsError (List Nat) :=
  if sk.length ≠ 64 then .error (.error "bad secret key size")
  else .ok (idealSig (sk.drop 32) m ++ m)

/-- Ideal model of `nacl.sign.open(signedMsg, publicKey)`.  TweetNaCl throws
`Error("bad public key size")` when the public key is not 32 bytes; it returns
`null` when the signed message is shorter than 64 bytes or when the leading 64
bytes are not a valid signature of the remainder under `publicKey`. -/
def nacl_sign_open (sm pk : List Nat) : Except JsError (Option (List Nat)) :=
  if pk.length ≠ 32 then .error (.error "bad public key size")
  else if sm.length < 64 then .ok none
  else if sm.take 64 = idealSig pk (sm.drop 64) then .ok (some (sm.drop 64))
  else .ok none

/-- encrypt.ts line 11: scheme identifier. -/
def SCHEME_SECRETBOX : String := "XSalsa20-Poly1305"

/-- encrypt.ts lines 14-23, the fields `decryptSymmetric` reads (the optional
asymmetric keyWrap field is never read by the symmetric functions and is
omitted). -/
structure EncryptedPayload where
  ciphertext : B64
  nonce : B64
  scheme : String
deriving DecidableEq

/-- encrypt.ts lines 28-32: the nested key_wrap object of the vault metadata. -/
structure KeyWrapMeta where
  algorithm : String
  wrapped_key : B64
  wrap_nonce : B64
deriving DecidableEq

/-- encrypt.ts lines 25-33: vault envelope metadata. -/
structure VaultEncryptionMeta where
  scheme : String
  nonce : B64
  key_wrap : KeyWrapMeta
deriving DecidableEq

/-- encrypt.ts lines 53-66 `encryptSymmetric` (the randomly generated nonce of
the `nonce || generateNonce()` default is passed as an explicit argument). -/
def encryptSymmetric (plaintext key nonceBytes : List Nat) :
    Except JsError EncryptedPayload := do
  let ciphertext ← nacl_secretbox plaintext nonceBytes key
  pure { ciphertext := encodeBase64 ciphertext
         nonce := encodeBase64 nonceBytes
         scheme := SCHEME_SECRETBOX }

/-- encrypt.ts lines 87-97: the body of the `try` block of `decryptSymmetric`. -/
def decryptSymmetricTry (payload : EncryptedPayload) (key : List Nat) :
    Except JsError (List Nat) := do
  let ciphertext ← decodeBase64 payload.ciphertext
  let nonce ← decodeBase64 payload.nonce
  let decrypted ← nacl_secretbox_open ciphertext nonce key
  match decrypted with
  | none =>
      Except.error
        (JsError.decryptionError "Decryption failed: incorrect key or corrupted data")
  | some d => pure d

/-- encrypt.ts lines 83-106 `decryptSymmetric`: runs the try-block and, in the
catch, re-throws a DecryptionError unchanged and wraps any other error. -/
def decryptSymmetric (payload : EncryptedPayload) (key : List Nat) :
    Except JsError (List Nat) :=
  match decryptSymmetricTry payload key with
  | .ok d => .ok d
  | .error e =>
    if e.isDecryptionError then .error e
    else .error (.decryptionError ("Decryption error: " ++ e.message))

/-- encrypt.ts lines 197-227 `encryptForVault` (the randomly generated DEK and
the two randomly generated nonces are passed as explicit arguments). -/
def encryptForVault (plaintext documentKey dek documentNonce dekNonce : List Nat) :
    Except JsError (List Nat × VaultEncryptionMeta) := do
  let ciphertext ← nacl_secretbox plaintext documentNonce dek
  let wrappedDek ← nacl_secretbox dek dekNonce documentKey
  pure (ciphertext,
    { scheme := SCHEME_SECRETBOX
      nonce := encodeBase64 documentNonce
      key_wrap :=
        { algorithm := "XSalsa20-Poly1305"
          wrapped_key := encodeBase64 wrappedDek
          wrap_nonce := encodeBase64 dekNonce } })

/-- encrypt.ts lines 233-256 `decryptFromVault`. -/
def decryptFromVault (encryptedBlob : List Nat) (encryptionMeta : VaultEncryptionMeta)
    (documentKey : List Nat) : Except JsError (List Nat) := do
  let wrappedDek ← decodeBase64 encryptionMeta.key_wrap.wrapped_key
  let wrapNonce ← decodeBase64 encryptionMeta.key_wrap.wrap_nonce
  let dekOpt ← nacl_secretbox_open wrappedDek wrapNonce documentKey
  match dekOpt with
  | none => Except.error (JsError.error "Failed to unwrap document encryption key")
  | some dek => do
    let documentNonce ← decodeBase64 encryptionMeta.nonce
    let decryptedOpt ← nacl_secretbox_open encryptedBlob documentNonce dek
    match decryptedOpt with
    | none => Except.error (JsError.error "Failed to decrypt document")
    | some d => pure d

/-! ### did.ts: base58btc and did:key -/

/-- did.ts line 15: the Bitcoin base58 alphabet, as a character list. -/
def alph : List Char :=
  "123456789ABCDEFGHJKLMNPQRSTUVWXYZabcdefghijkmnopqrstuvwxyz".toList

/-- JS `BASE58_ALPHABET[d]` string indexing. -/
def alphChar (d : Nat) : Char := alph.getD d ' '

/-- did.ts lines 23-26: `num = num * 256 + byte` over the input bytes. -/
def bytesToNat (data : List Nat) : Nat := data.foldl (fun a x => a * 256 + x) 0

/-- did.ts lines 33-37: the `while (num > 0)` division loop, little-endian
base-58 digits.  The loop is modeled with explicit fuel; any fuel at least the
number of digits produces the same list, and callers pass a sufficient bound. -/
def b58DigitsAux : Nat → Nat → List Nat
  | 0, _ => []
  | fuel + 1, n => if n = 0 then [] else n % 58 :: b58DigitsAux fuel (n / 58)

/-- did.ts lines 40-46: the leading-zero-byte counting loop of base58Encode. -/
def leadingZeroCount : List Nat → Nat
  | [] => 0
  | x :: xs => if x = 0 then leadingZeroCount xs + 1 else 0

/-- did.ts lines 21-49 `base58Encode`.  The digit fuel `2 * data.length`
suffices for byte inputs since the accumulated value is below
`256 ^ data.length ≤ 58 ^ (2 * data.length)`. -/
def base58Encode (data : List Nat) : List Char :=
  let num := bytesToNat data
  if num = 0 then ['1']
  else
    (((b58DigitsAux (2 * data.length) num).map alphChar)
      ++ List.replicate (leadingZeroCount data) '1').reverse

/-- did.ts lines 59-66: the character parsing loop of base58Decode,
`BASE58_ALPHABET.indexOf(char)` with a throw on a character outside the
alphabet. -/
def parseB58 (acc : Nat) : List Char → Except JsError Nat
  | [] => .ok acc
  | c :: cs =>
    match alph.findIdx? (fun a => a == c) with
    | none => .error (.error ("Invalid base58 character: " ++ c.toString))
    | some i => parseB58 (acc * 58 + i) cs

/-- did.ts lines 69-76: the leading alphabet-zero counting loop of
base58Decode. -/
def leadingOneCount : List Char → Nat
  | [] => 0
  | c :: cs => if c = '1' then leadingOneCount cs + 1 else 0

/-- Number of hexadecimal digits of `n`, i.e. `num.toString(16).length` for a
positive num, with explicit fuel (any fuel with `n < 16 ^ fuel` is exact). -/
def hexLenAux : Nat → Nat → Nat
  | 0, _ => 0
  | fuel + 1, n => if n = 0 then 0 else hexLenAux fuel (n / 16) + 1

/-- did.ts lines 88-92: the big-endian byte extraction
`bytes[leadingZeros + byteLength - 1 - i] = (num >> 8 i) & 0xff`. -/
def natToBytesFixed (len n : Nat) : List Nat :=
  (List.range len).map fun j => n / 256 ^ (len - 1 - j) % 256

/-- did.ts lines 54-95 `base58Decode`.  `hexLenAux (2 * encoded.length)`
models `num.toString(16).length`: the parsed value is below
`58 ^ encoded.length ≤ 16 ^ (2 * encoded.length)`, so the fuel is exact. -/
def base58Decode (encoded : List Char) : Except JsError (List Nat) :=
  if encoded.isEmpty then .ok []
  else
    match parseB58 0 encoded with
    | .error e => .error e
    | .ok num =>
      let z := leadingOneCount encoded
      if num = 0 then .ok (List.replicate z 0)
      else
        let byteLength := (hexLenAux (2 * encoded.length) num + 1) / 2
        .ok (List.replicate z 0 ++ natToBytesFixed byteLength num)

/-- The literal string prefix of a did:key identifier (9 characters). -/
def didPrefix : List Char := "did:key:z".toList

/-- did.ts lines 115-131 `publicKeyToDid`: multicodec prefix 0xed 0x01,
base58btc, literal prefix. -/
def publicKeyToDid (publicKey : List Nat) : Except JsError (List Char) :=
  if publicKey.length ≠ 32 then .error (.error "Ed25519 public key must be 32 bytes")
  else .ok (didPrefix ++ base58Encode (0xed :: 0x01 :: publicKey))

/-- did.ts lines 137-161 `didToPublicKey`.  The JS comparisons
`decoded[0] !== 0xed` and `decoded[1] !== 0x01` read `undefined` past the end
of the array, which compares unequal to any byte; `getD` with the non-byte
default 256 models this. -/
def didToPublicKey (did : List Char) : Except JsError (List Nat) :=
  if didPrefix.isPrefixOf did then
    match base58Decode (did.drop 9) with
    | .error e => .error e
    | .ok decoded =>
      if decoded.getD 0 256 ≠ 0xed ∨ decoded.getD 1 256 ≠ 0x01 then
        .error (.error "Invalid multicodec prefix - expected Ed25519")
      else
        let publicKey := decoded.drop 2
        if publicKey.length ≠ 32 then .error (.error "Invalid public key length")
        else .ok publicKey
  else .error (.error "Invalid did:key format - must start with \x27did:key:z\x27")

/-- did.ts lines 100-109 `generateKeyPair`, ideal model: the random seed is an
explicit argument; as in TweetNaCl the 64-byte secret key is the seed followed
by the public key, and in the ideal model the public-key derivation is the
identity (an injective derivation).  Returns (signingKey, verifyKey). -/
def generateKeyPair (seed : List Nat) : List Nat × List Nat :=
  (seed ++ seed, seed)

/-- did.ts lines 190-197 `signMessage`: `nacl.sign` then
`slice(0, nacl.sign.signatureLength)` keeps the first 64 bytes. -/
def signMessage (message signingKey : List Nat) : Except JsError (List Nat) :=
  (nacl_sign message signingKey).map fun sm => sm.take 64

/-- did.ts lines 202-214 `verifySignature`: concatenates signature and message
and checks `nacl.sign.open` against null.  Exceptions of `nacl.sign.open`
(wrong-size public key) propagate: there is no try/catch here. -/
def verifySignature (message signature publicKey : List Nat) :
    Except JsError Bool := do
  let signedMessage := signature ++ message
  let result ← nacl_sign_open signedMessage publicKey
  pure result.isSome

/-- did.ts lines 232-245 `verifySignatureBase64`: decodes the base64
signature and delegates to `verifySignature`, with a catch-all returning
false. -/
def verifySignatureBase64 (message : List Nat) (signatureB64 : B64)
    (publicKey : List Nat) : Bool :=
  match (do
      let signature ← decodeBase64 signatureB64
      verifySignature message signature publicKey : Except JsError Bool) with
  | .ok b => b
  | .error _ => false

/-! ### recovery/page.tsx: the role-creation signature -/

/-- `new TextEncoder().encode` on the ASCII canonical payload. -/
def charsToBytes (s : List Char) : List Nat := s.map Char.toNat

/-- Ideal model of `crypto.subtle.digest("SHA-256", data)`: a deterministic
32-byte digest, injective on byte inputs in the model. -/
def sha256Digest (data : List Nat) : List Nat :=
  val257 data :: List.replicate 31 0

/-- recovery/page.tsx line 103: the string the placeholder signature is
computed from; note the target field is the target account id, not the target
DID. -/
def handleAddRoleSignatureData (roleType targetAccountId timestamp : List Char) :
    List Char :=
  "role:".toList ++ roleType ++ ":target:".toList ++ targetAccountId
    ++ ":time:".toList ++ timestamp

/-- recovery/page.tsx lines 100-109: the submitted owner signature is the
SHA-256 digest of the payload (transported base64 via btoa; the raw digest
bytes are modeled).  No signing key is involved. -/
def handleAddRoleOwnerSignature (roleType targetAccountId timestamp : List Char) :
    List Nat :=
  sha256Digest (charsToBytes (handleAddRoleSignatureData roleType targetAccountId timestamp))

/-- Little-endian restatement of `val257`, used to prove its injectivity. -/
def valLE : List Nat → Nat
  | [] => 0
  | x :: xs => (x + 1) + 257 * valLE xs

/-- Value of a little-endian base-58 digit list; the specification-side view
of the digit loop of base58Encode. -/
def ofD58 : List Nat → Nat
  | [] => 0
  | d :: ds => d + 58 * ofD58 ds

end Anchor

namespace Anchor

/-! ## Generic arithmetic and list lemmas -/

theorem val257_append_singleton (l : List Nat) (x : Nat) :
    val257 (l ++ [x]) = val257 l * 257 + (x + 1) := by
  simp [val257, List.foldl_append]

theorem val257_reverse (l : List Nat) : val257 l.reverse = valLE l := by
  induction l with
  | nil => rfl
  | cons x xs ih =>
    rw [List.reverse_cons, val257_append_singleton, ih, valLE]
    ring

theorem valLE_inj (l1 : List Nat) : ∀ (l2 : List Nat), (∀ x ∈ l1, x < 256) →
    (∀ x ∈ l2, x < 256) → valLE l1 = valLE l2 → l1 = l2 := by
  induction l1 with
  | nil =>
    intro l2 _ _ h
    cases l2 with
    | nil => rfl
    | cons y ys => simp [valLE] at h; omega
  | cons x xs ih =>
    intro l2 h1 h2 h
    cases l2 with
    | nil => simp [valLE] at h
    | cons y ys =>
      simp only [valLE] at h
      have hx : x < 256 := h1 x (by simp)
      have hy : y < 256 := h2 y (by simp)
      have hxy : x = y ∧ valLE xs = valLE ys := by omega
      have := ih ys (fun a ha => h1 a (by simp [ha])) (fun a ha => h2 a (by simp [ha])) hxy.2
      rw [hxy.1, this]

theorem val257_inj {l1 l2 : List Nat} (h1 : ∀ x ∈ l1, x < 256)
    (h2 : ∀ x ∈ l2, x < 256) (h : val257 l1 = val257 l2) : l1 = l2 := by
  have e : valLE l1.reverse = valLE l2.reverse := by
    rw [← val257_reverse, ← val257_reverse, List.reverse_reverse, List.reverse_reverse]
    exact h
  have := valLE_inj l1.reverse l2.reverse
    (fun a ha => h1 a (List.mem_reverse.mp ha))
    (fun a ha => h2 a (List.mem_reverse.mp ha)) e
  exact List.reverse_injective this

theorem secretboxTag_length (k n m : List Nat) : (secretboxTag k n m).length = 16 := rfl

theorem take16_tag (k n m rest : List Nat) :
    (secretboxTag k n m ++ rest).take 16 = secretboxTag k n m := by
  rw [← secretboxTag_length k n m, List.take_left]

theorem drop16_tag (k n m rest : List Nat) :
    (secretboxTag k n m ++ rest).drop 16 = rest := by
  rw [← secretboxTag_length k n m, List.drop_left]

/-! ## Lemmas about the ideal secretbox -/

theorem nacl_secretbox_ok (m n k : List Nat) (hk : k.length = 32) (hn : n.length = 24) :
    nacl_secretbox m n k = Except.ok (secretboxTag k n m ++ m) := by
  simp [nacl_secretbox, hk, hn]

theorem nacl_secretbox_open_box (m n k : List Nat) (hk : k.length = 32)
    (hn : n.length = 24) :
    nacl_secretbox_open (secretboxTag k n m ++ m) n k = Except.ok (some m) := by
  have hlen : (secretboxTag k n m ++ m).length = 16 + m.length := by
    simp [secretboxTag_length]
  simp [nacl_secretbox_open, hk, hn, hlen, take16_tag, drop16_tag]

theorem nacl_secretbox_open_wrong_key (m n k k2 : List Nat)
    (hk2 : k2.length = 32) (hn : n.length = 24)
    (hbk : ∀ x ∈ k, x < 256) (hbk2 : ∀ x ∈ k2, x < 256) (hne : k2 ≠ k) :
    nacl_secretbox_open (secretboxTag k n m ++ m) n k2 = Except.ok none := by
  have hlen : (secretboxTag k n m ++ m).length = 16 + m.length := by
    simp [secretboxTag_length]
  have htag : secretboxTag k n m ≠ secretboxTag k2 n ((secretboxTag k n m ++ m).drop 16) := by
    rw [drop16_tag]
    intro h
    have hv : val257 k = val257 k2 := by
      simpa [secretboxTag] using congrArg (fun l => l.headI) h
    exact hne (val257_inj hbk2 hbk hv.symm)
  simp [nacl_secretbox_open, hk2, hn, hlen, take16_tag, htag]

/-! ## Claim theorems for the envelope encryption service -/

/-- Claim C1: for every plaintext and every 32-byte key (with the generated
32-byte DEK and 24-byte nonces), decrypting the envelope produced by
encryptForVault with the same key and the returned encryptionMeta yields
exactly the plaintext. -/
theorem vault_encrypt_decrypt_roundtrip
    (p documentKey dek documentNonce dekNonce : List Nat)
    (hk : documentKey.length = 32) (hdek : dek.length = 32)
    (hn1 : documentNonce.length = 24) (hn2 : dekNonce.length = 24) :
    ∃ blob meta,
      encryptForVault p documentKey dek documentNonce dekNonce = Except.ok (blob, meta) ∧
      decryptFromVault blob meta documentKey = Except.ok p := by
  refine ⟨secretboxTag dek documentNonce p ++ p,
    { scheme := SCHEME_SECRETBOX
      nonce := encodeBase64 documentNonce
      key_wrap :=
        { algorithm := "XSalsa20-Poly1305"
          wrapped_key := encodeBase64 (secretboxTag documentKey dekNonce dek ++ dek)
          wrap_nonce := encodeBase64 dekNonce } }, ?_, ?_⟩
  · rw [encryptForVault]
    rw [nacl_secretbox_ok p documentNonce dek hdek hn1,
      nacl_secretbox_ok dek dekNonce documentKey hk hn2]
    rfl
  · rw [decryptFromVault]
    show (do
      let dekOpt ← nacl_secretbox_open (secretboxTag documentKey dekNonce dek ++ dek)
        dekNonce documentKey
      match dekOpt with
      | none => Except.error (JsError.error "Failed to unwrap document encryption key")
      | some dk => do
        let decryptedOpt ← nacl_secretbox_open (secretboxTag dek documentNonce p ++ p)
          documentNonce dk
        match decryptedOpt with
        | none => Except.error (JsError.error "Failed to decrypt document")
        | some d => pure d : Except JsError (List Nat)) = Except.ok p
    rw [nacl_secretbox_open_box dek dekNonce documentKey hk hn2]
    show (do
      let decryptedOpt ← nacl_secretbox_open (secretboxTag dek documentNonce p ++ p)
        documentNonce dek
      match decryptedOpt with
      | none => Except.error (JsError.error "Failed to decrypt document")
      | some d => pure d : Except JsError (List Nat)) = Except.ok p
    rw [nacl_secretbox_open_box p documentNonce dek hdek hn1]
    rfl

/-- Witness for C1 at a concrete plaintext, key, DEK and nonces. -/
theorem vault_encrypt_decrypt_roundtrip_witness :
    ∃ blob meta,
      encryptForVault [104, 105] (List.replicate 32 0) (List.replicate 32 2)
        (List.replicate 24 0) (List.replicate 24 1) = Except.ok (blob, meta) ∧
      decryptFromVault blob meta (List.replicate 32 0) = Except.ok [104, 105] :=
  vault_encrypt_decrypt_roundtrip [104, 105] (List.replicate 32 0) (List.replicate 32 2)
    (List.replicate 24 0) (List.replicate 24 1) (by decide) (by decide) (by decide) (by decide)

theorem encryptForVault_eq (p documentKey dek documentNonce dekNonce : List Nat)
    (hk : documentKey.length = 32) (hdek : dek.length = 32)
    (hn1 : documentNonce.length = 24) (hn2 : dekNonce.length = 24) :
    encryptForVault p documentKey dek documentNonce dekNonce =
      Except.ok (secretboxTag dek documentNonce p ++ p,
        { scheme := SCHEME_SECRETBOX
          nonce := encodeBase64 documentNonce
          key_wrap :=
            { algorithm := "XSalsa20-Poly1305"
              wrapped_key := encodeBase64 (secretboxTag documentKey dekNonce dek ++ dek)
              wrap_nonce := encodeBase64 dekNonce } }) := by
  rw [encryptForVault]
  rw [nacl_secretbox_ok p documentNonce dek hdek hn1,
    nacl_secretbox_ok dek dekNonce documentKey hk hn2]
  rfl

/-- Claim C7: decrypting the envelope produced by encryptForVault with any
32-byte key other than the one it was produced with always fails (with the
unwrap error thrown by decryptFromVault) and never returns a plaintext. -/
theorem decrypt_wrong_key_always_fails
    (p documentKey dek documentNonce dekNonce otherKey : List Nat)
    (hk : documentKey.length = 32) (hko : otherKey.length = 32)
    (hdek : dek.length = 32) (hn1 : documentNonce.length = 24) (hn2 : dekNonce.length = 24)
    (hbk : ∀ x ∈ documentKey, x < 256) (hbko : ∀ x ∈ otherKey, x < 256)
    (hne : otherKey ≠ documentKey) :
    (encryptForVault p documentKey dek documentNonce dekNonce).bind
      (fun r => decryptFromVault r.1 r.2 otherKey) =
      Except.error (JsError.error "Failed to unwrap document encryption key") := by
  rw [encryptForVault_eq p documentKey dek documentNonce dekNonce hk hdek hn1 hn2]
  show decryptFromVault (secretboxTag dek documentNonce p ++ p) _ otherKey = _
  rw [decryptFromVault]
  show (do
    let dekOpt ← nacl_secretbox_open (secretboxTag documentKey dekNonce dek ++ dek)
      dekNonce otherKey
    match dekOpt with
    | none => Except.error (JsError.error "Failed to unwrap document encryption key")
    | some dk => do
      let decryptedOpt ← nacl_secretbox_open (secretboxTag dek documentNonce p ++ p)
        documentNonce dk
      match decryptedOpt with
      | none => Except.error (JsError.error "Failed to decrypt document")
      | some d => pure d : Except JsError (List Nat)) = _
  rw [nacl_secretbox_open_wrong_key dek dekNonce documentKey otherKey hko hn2 hbk hbko hne]
  rfl

/-- Witness for C7 at a concrete plaintext, keys, DEK and nonces. -/
theorem decrypt_wrong_key_always_fails_witness :
    (encryptForVault [7] (List.replicate 32 0) (List.replicate 32 2)
        (List.replicate 24 0) (List.replicate 24 1)).bind
      (fun r => decryptFromVault r.1 r.2 (List.replicate 32 1)) =
      Except.error (JsError.error "Failed to unwrap document encryption key") :=
  decrypt_wrong_key_always_fails [7] (List.replicate 32 0) (List.replicate 32 2)
    (List.replicate 24 0) (List.replicate 24 1) (List.replicate 32 1)
    (by decide) (by decide) (by decide) (by decide) (by decide)
    (by decide) (by decide) (by decide)

/-- Claim C3 (code evaluation): in decryptFromVault the DEK-unwrap
authentication failure (wrong outer key) and the payload decryption failure
(corrupted ciphertext) surface as two different plain Error values,
distinguishable by the caller, and neither is the uniform DecryptionError
class. -/
theorem vault_failure_causes_distinguishable :
    ((encryptForVault [7] (List.replicate 32 0) (List.replicate 32 2)
        (List.replicate 24 0) (List.replicate 24 1)).bind
      (fun r => decryptFromVault r.1 r.2 (List.replicate 32 1)) =
        Except.error (JsError.error "Failed to unwrap document encryption key")) ∧
    ((encryptForVault [7] (List.replicate 32 0) (List.replicate 32 2)
        (List.replicate 24 0) (List.replicate 24 1)).bind
      (fun r => decryptFromVault [] r.2 (List.replicate 32 0)) =
        Except.error (JsError.error "Failed to decrypt document")) ∧
    JsError.error "Failed to unwrap document encryption key" ≠
      JsError.error "Failed to decrypt document" ∧
    (JsError.error "Failed to unwrap document encryption key").isDecryptionError = false ∧
    (JsError.error "Failed to decrypt document").isDecryptionError = false :=
  ⟨by decide, by decide, by decide, rfl, rfl⟩

/-- Claim C10: every failure of decryptSymmetric surfaces to the caller as a
DecryptionError; no other exception kind escapes the function. -/
theorem decryptSymmetric_errors_are_DecryptionError
    (payload : EncryptedPayload) (key : List Nat) (e : JsError)
    (h : decryptSymmetric payload key = Except.error e) : e.isDecryptionError = true := by
  unfold decryptSymmetric at h
  cases htry : decryptSymmetricTry payload key with
  | ok d => rw [htry] at h; exact absurd h (by simp)
  | error e2 =>
    rw [htry] at h
    dsimp only at h
    by_cases hd : e2.isDecryptionError
    · rw [if_pos hd] at h
      cases h
      exact hd
    · rw [if_neg hd] at h
      cases h
      rfl

/-- Witness for C10: a payload whose ciphertext is not valid base64 fails with
a DecryptionError. -/
theorem decryptSymmetric_errors_are_DecryptionError_witness :
    (JsError.decryptionError "Decryption error: invalid encoding").isDecryptionError = true :=
  decryptSymmetric_errors_are_DecryptionError
    ⟨B64.invalid "%%", B64.valid [], "XSalsa20-Poly1305"⟩ []
    (JsError.decryptionError "Decryption error: invalid encoding") rfl

/-! ## Lemmas about the ideal Ed25519 signature -/

theorem idealSig_length (pk m : List Nat) : (idealSig pk m).length = 64 := rfl

theorem take64_sig (pk m rest : List Nat) :
    (idealSig pk m ++ rest).take 64 = idealSig pk m := by
  rw [← idealSig_length pk m, List.take_left]

theorem drop64_sig (pk m rest : List Nat) :
    (idealSig pk m ++ rest).drop 64 = rest := by
  rw [← idealSig_length pk m, List.drop_left]

theorem nacl_sign_open_valid (pk m : List Nat) (hpk : pk.length = 32) :
    nacl_sign_open (idealSig pk m ++ m) pk = Except.ok (some m) := by
  have hlen : (idealSig pk m ++ m).length = 64 + m.length := by
    simp [idealSig_length]
  simp [nacl_sign_open, hpk, hlen, take64_sig, drop64_sig]

theorem nacl_sign_open_ok (sm pk : List Nat) (hpk : pk.length = 32) :
    ∃ r, nacl_sign_open sm pk = Except.ok r := by
  rw [nacl_sign_open, if_neg (by omega)]
  by_cases h1 : sm.length < 64
  · exact ⟨none, by rw [if_pos h1]⟩
  · rw [if_neg h1]
    by_cases h2 : sm.take 64 = idealSig pk (sm.drop 64)
    · exact ⟨some (sm.drop 64), by rw [if_pos h2]⟩
    · exact ⟨none, by rw [if_neg h2]⟩

/-! ## Claim theorems for sign/verify -/

/-- Claim C5: for every keypair produced by generateKeyPair, a signature of a
message verifies against the matching public key, fails against any other
32-byte public key, and fails for any tampered message. -/
theorem sign_verify_properties
    (seed m m2 pk2 : List Nat)
    (hs : seed.length = 32) (hbs : ∀ x ∈ seed, x < 256)
    (hbm : ∀ x ∈ m, x < 256) (hbm2 : ∀ x ∈ m2, x < 256)
    (hpk2 : pk2.length = 32) (hbpk2 : ∀ x ∈ pk2, x < 256)
    (hne : pk2 ≠ (generateKeyPair seed).2) (hm : m2 ≠ m) :
    ∃ s, signMessage m (generateKeyPair seed).1 = Except.ok s ∧
      verifySignature m s (generateKeyPair seed).2 = Except.ok true ∧
      verifySignature m s pk2 = Except.ok false ∧
      verifySignature m2 s (generateKeyPair seed).2 = Except.ok false := by
  have hfst : (generateKeyPair seed).1 = seed ++ seed := rfl
  have hsnd : (generateKeyPair seed).2 = seed := rfl
  rw [hsnd] at hne
  rw [hfst, hsnd]
  have hsk : (seed ++ seed).length = 64 := by simp [hs]
  have hdrop : (seed ++ seed).drop 32 = seed := by
    have h := List.drop_left seed seed
    rwa [hs] at h
  refine ⟨idealSig seed m, ?_, ?_, ?_, ?_⟩
  · rw [signMessage, nacl_sign, if_neg (by omega), hdrop]
    show Except.ok ((idealSig seed m ++ m).take 64) = Except.ok (idealSig seed m)
    rw [take64_sig]
  · rw [verifySignature]
    show Except.bind (nacl_sign_open (idealSig seed m ++ m) seed) _ = _
    rw [nacl_sign_open_valid seed m hs]
    rfl
  · have hneq : idealSig seed m ≠ idealSig pk2 ((idealSig seed m ++ m).drop 64) := by
      rw [drop64_sig]
      intro h
      have hv : val257 seed = val257 pk2 := by
        simpa [idealSig] using congrArg (fun l => l.headI) h
      exact hne (val257_inj hbpk2 hbs hv.symm)
    have hlen : (idealSig seed m ++ m).length = 64 + m.length := by simp [idealSig_length]
    rw [verifySignature]
    show Except.bind (nacl_sign_open (idealSig seed m ++ m) pk2) _ = _
    rw [nacl_sign_open, if_neg (by omega), if_neg (by omega), take64_sig, if_neg hneq]
    rfl
  · have hneq : idealSig seed m ≠ idealSig seed ((idealSig seed m ++ m2).drop 64) := by
      rw [drop64_sig]
      intro h
      have hv : val257 m = val257 m2 := by
        simpa [idealSig] using congrArg (fun l => l.getD 1 0) h
      exact hm (val257_inj hbm2 hbm hv.symm)
    have hlen : (idealSig seed m ++ m2).length = 64 + m2.length := by simp [idealSig_length]
    rw [verifySignature]
    show Except.bind (nacl_sign_open (idealSig seed m ++ m2) seed) _ = _
    rw [nacl_sign_open, if_neg (by omega), if_neg (by omega), take64_sig, if_neg hneq]
    rfl

/-- Witness for C5 at a concrete seed, messages and foreign public key. -/
theorem sign_verify_properties_witness :
    ∃ s, signMessage [1, 2, 3] (generateKeyPair (List.replicate 32 9)).1 = Except.ok s ∧
      verifySignature [1, 2, 3] s (generateKeyPair (List.replicate 32 9)).2 = Except.ok true ∧
      verifySignature [1, 2, 3] s (List.replicate 32 5) = Except.ok false ∧
      verifySignature [1, 2, 4] s (generateKeyPair (List.replicate 32 9)).2 =
        Except.ok false :=
  sign_verify_properties (List.replicate 32 9) [1, 2, 3] [1, 2, 4] (List.replicate 32 5)
    (by decide) (by decide) (by decide) (by decide) (by decide) (by decide)
    (by decide) (by decide)

/-- Claim C8 counterexample: verifySignature raises (propagates the TweetNaCl
bad-public-key-size exception) on a 31-byte public key instead of returning
false. -/
theorem verifySignature_raises_on_bad_public_key_size :
    verifySignature [] [] (List.replicate 31 0) =
      Except.error (JsError.error "bad public key size") := by decide

/-- Claim C8 (amended): verifySignature never raises when the public key is 32
bytes (any signature length and message included), and verifySignatureBase64
never raises and returns false on malformed input (invalid base64 signature or
wrong-length public key). -/
theorem verify_malformed_input_behavior :
    (∀ (m s pk : List Nat), pk.length = 32 → ∃ b, verifySignature m s pk = Except.ok b) ∧
    (∀ (m : List Nat) (sb : B64) (pk : List Nat),
      (∃ str, sb = B64.invalid str) ∨ pk.length ≠ 32 →
      verifySignatureBase64 m sb pk = false) := by
  constructor
  · intro m s pk hpk
    obtain ⟨r, hr⟩ := nacl_sign_open_ok (s ++ m) pk hpk
    exact ⟨r.isSome, by simp [verifySignature, hr]⟩
  · intro m sb pk h
    rcases h with ⟨str, rfl⟩ | hpk
    · rfl
    · cases sb with
      | invalid str => rfl
      | valid bytes =>
        rw [verifySignatureBase64]
        show (match (Except.bind (decodeBase64 (B64.valid bytes))
            (fun signature => verifySignature m signature pk) : Except JsError Bool) with
          | .ok b => b | .error _ => false) = false
        rw [decodeBase64]
        show (match (verifySignature m bytes pk : Except JsError Bool) with
          | .ok b => b | .error _ => false) = false
        rw [verifySignature]
        show (match (Except.bind (nacl_sign_open (bytes ++ m) pk) _ : Except JsError Bool) with
          | .ok b => b | .error _ => false) = false
        rw [nacl_sign_open, if_pos hpk]
        rfl

/-- Witness for the amended C8 at concrete inputs. -/
theorem verify_malformed_input_behavior_witness :
    (∃ b, verifySignature [1] [2] (List.replicate 32 0) = Except.ok b) ∧
    verifySignatureBase64 [1] (B64.invalid "!!") (List.replicate 32 0) = false ∧
    verifySignatureBase64 [1] (B64.valid [2]) (List.replicate 31 0) = false :=
  ⟨verify_malformed_input_behavior.1 [1] [2] (List.replicate 32 0) (by decide),
   verify_malformed_input_behavior.2 [1] (B64.invalid "!!") (List.replicate 32 0)
     (Or.inl ⟨"!!", rfl⟩),
   verify_malformed_input_behavior.2 [1] (B64.valid [2]) (List.replicate 31 0)
     (Or.inr (by decide))⟩

/-! ## The recovery-role placeholder signature (claim C4) -/

theorem getD_take_lt {α : Type} (l : List α) : ∀ (n i : Nat) (d : α), i < n →
    (l.take n).getD i d = l.getD i d := by
  induction l with
  | nil => intro n i d _; simp
  | cons x xs ih =>
    intro n i d h
    cases n with
    | zero => omega
    | succ n2 =>
      cases i with
      | zero => simp
      | succ i2 =>
        simp only [List.take_succ_cons, List.getD_cons_succ]
        exact ih n2 i2 d (by omega)

theorem getD_append_ge {α : Type} (l l2 : List α) : ∀ (n : Nat) (d : α), l.length ≤ n →
    (l ++ l2).getD n d = l2.getD (n - l.length) d := by
  induction l with
  | nil => intro n d _; simp
  | cons x xs ih =>
    intro n d h
    cases n with
    | zero => simp at h
    | succ n2 =>
      simp only [List.cons_append, List.getD_cons_succ, List.length_cons]
      rw [ih n2 d (by simp at h; omega)]
      congr 1
      omega

theorem getD_replicate_zero (n i : Nat) : (List.replicate n (0 : Nat)).getD i 0 = 0 := by
  induction n generalizing i with
  | zero => simp
  | succ n2 ih =>
    cases i with
    | zero => simp
    | succ i2 => simp only [List.replicate_succ, List.getD_cons_succ]; exact ih i2

/-- Claim C4 (code evaluation): the owner signature submitted by handleAddRole
is the 32-byte SHA-256 digest of the payload, not a 64-byte Ed25519 signature,
and it never verifies over the canonical payload against any 32-byte public
key. -/
theorem placeholder_role_signature_never_verifies
    (roleType targetAccountId timestamp : List Char) (pk : List Nat)
    (hpk : pk.length = 32) :
    verifySignature
      (charsToBytes (handleAddRoleSignatureData roleType targetAccountId timestamp))
      (handleAddRoleOwnerSignature roleType targetAccountId timestamp) pk =
      Except.ok false ∧
    (handleAddRoleOwnerSignature roleType targetAccountId timestamp).length = 32 := by
  refine ⟨?_, rfl⟩
  have hrole : ("role:".toList : List Char) = 'r' :: "ole:".toList := by decide
  obtain ⟨mt, hmt⟩ : ∃ mt,
      charsToBytes (handleAddRoleSignatureData roleType targetAccountId timestamp) =
        114 :: mt := by
    refine ⟨charsToBytes ("ole:".toList ++ roleType ++ ":target:".toList
      ++ targetAccountId ++ ":time:".toList ++ timestamp), ?_⟩
    rw [handleAddRoleSignatureData, hrole]
    rfl
  set m := charsToBytes (handleAddRoleSignatureData roleType targetAccountId timestamp)
    with hmdef
  have hsig : handleAddRoleOwnerSignature roleType targetAccountId timestamp =
      val257 m :: List.replicate 31 0 := rfl
  have hsm : handleAddRoleOwnerSignature roleType targetAccountId timestamp ++ m =
      val257 m :: (List.replicate 31 0 ++ (114 :: mt)) := by
    rw [hsig, hmt]
    rfl
  have hsmlen : (handleAddRoleOwnerSignature roleType targetAccountId timestamp ++ m).length
      = 33 + mt.length := by
    rw [hsm]
    simp
    omega
  have hopen : nacl_sign_open
      (handleAddRoleOwnerSignature roleType targetAccountId timestamp ++ m) pk =
      Except.ok none := by
    rw [nacl_sign_open, if_neg (by omega)]
    by_cases hlt : (handleAddRoleOwnerSignature roleType targetAccountId timestamp ++ m).length < 64
    · rw [if_pos hlt]
    · rw [if_neg hlt]
      have hneq : (handleAddRoleOwnerSignature roleType targetAccountId timestamp ++ m).take 64
          ≠ idealSig pk
            ((handleAddRoleOwnerSignature roleType targetAccountId timestamp ++ m).drop 64) := by
        intro hco
        have h32 : ((handleAddRoleOwnerSignature roleType targetAccountId timestamp
            ++ m).take 64).getD 32 0 = (idealSig pk
            ((handleAddRoleOwnerSignature roleType targetAccountId timestamp
              ++ m).drop 64)).getD 32 0 := by rw [hco]
        rw [getD_take_lt _ 64 32 0 (by omega)] at h32
        rw [hsm] at h32
        simp only [List.getD_cons_succ] at h32
        rw [getD_append_ge (List.replicate 31 0) (114 :: mt) 31 0 (by simp)] at h32
        simp only [List.length_replicate, Nat.sub_self, List.getD_cons_zero] at h32
        rw [idealSig] at h32
        simp only [List.getD_cons_succ] at h32
        rw [getD_replicate_zero 62 30] at h32
        exact absurd h32 (by omega)
      rw [if_neg hneq]
  rw [verifySignature]
  show Except.bind (nacl_sign_open
    (handleAddRoleOwnerSignature roleType targetAccountId timestamp ++ m) pk) _ = _
  rw [hopen]
  rfl

/-- Witness for C4: the placeholder signature of a concrete role-creation
payload does not verify against a concrete 32-byte public key, and its length
is 32 rather than 64. -/
theorem placeholder_role_signature_never_verifies_witness :
    verifySignature
      (charsToBytes (handleAddRoleSignatureData "verifier".toList "acc1".toList
        "2026-01-01T00:00:00.000Z".toList))
      (handleAddRoleOwnerSignature "verifier".toList "acc1".toList
        "2026-01-01T00:00:00.000Z".toList) (List.replicate 32 3) = Except.ok false ∧
    (handleAddRoleOwnerSignature "verifier".toList "acc1".toList
      "2026-01-01T00:00:00.000Z".toList).length = 32 :=
  placeholder_role_signature_never_verifies "verifier".toList "acc1".toList
    "2026-01-01T00:00:00.000Z".toList (List.replicate 32 3) (by decide)

/-! ## Base58: value lemmas -/

theorem foldl_base_shift (B : Nat) : ∀ (l : List Nat) (a : Nat),
    l.foldl (fun p q => p * B + q) a =
      a * B ^ l.length + l.foldl (fun p q => p * B + q) 0 := by
  intro l
  induction l with
  | nil => intro a; simp
  | cons x xs ih =>
    intro a
    have h1 : (x :: xs).foldl (fun p q => p * B + q) a =
        xs.foldl (fun p q => p * B + q) (a * B + x) := rfl
    have h2 : (x :: xs).foldl (fun p q => p * B + q) 0 =
        xs.foldl (fun p q => p * B + q) (0 * B + x) := rfl
    rw [h1, h2, ih (a * B + x), ih (0 * B + x), List.length_cons, pow_succ]
    ring

theorem bytesToNat_cons (x : Nat) (xs : List Nat) :
    bytesToNat (x :: xs) = x * 256 ^ xs.length + bytesToNat xs := by
  show xs.foldl (fun p q => p * 256 + q) (0 * 256 + x) = _
  rw [foldl_base_shift 256 xs (0 * 256 + x)]
  simp [bytesToNat]

theorem bytesToNat_lt (b : List Nat) (hb : ∀ x ∈ b, x < 256) :
    bytesToNat b < 256 ^ b.length := by
  induction b with
  | nil => simp [bytesToNat]
  | cons x xs ih =>
    rw [bytesToNat_cons, List.length_cons, pow_succ]
    have hx : x < 256 := hb x (by simp)
    have hxs := ih (fun a ha => hb a (by simp [ha]))
    calc x * 256 ^ xs.length + bytesToNat xs
        < x * 256 ^ xs.length + 256 ^ xs.length := by omega
      _ = (x + 1) * 256 ^ xs.length := by ring
      _ ≤ 256 * 256 ^ xs.length := by
          exact Nat.mul_le_mul_right _ (by omega)
      _ = 256 ^ xs.length * 256 := by ring

theorem foldl_base_zeros (B : Nat) : ∀ (z : Nat),
    (List.replicate z 0).foldl (fun p q => p * B + q) 0 = 0 := by
  intro z
  induction z with
  | zero => rfl
  | succ z2 ih =>
    show (List.replicate z2 0).foldl (fun p q => p * B + q) (0 * B + 0) = 0
    simpa using ih

theorem foldl_base_zeros_append (B : Nat) (z : Nat) (l : List Nat) :
    (List.replicate z 0 ++ l).foldl (fun p q => p * B + q) 0 =
      l.foldl (fun p q => p * B + q) 0 := by
  rw [List.foldl_append, foldl_base_zeros]

theorem bytesToNat_zeros_append (z : Nat) (l : List Nat) :
    bytesToNat (List.replicate z 0 ++ l) = bytesToNat l :=
  foldl_base_zeros_append 256 z l

theorem bytesToNat_all_zero (b : List Nat) (hb : ∀ x ∈ b, x = 0) :
    bytesToNat b = 0 := by
  have : b = List.replicate b.length 0 := by
    apply List.eq_replicate_of_mem
    intro a ha
    exact hb a ha
  rw [this]
  have := foldl_base_zeros 256 b.length
  simpa [bytesToNat] using this

/-! ## Base58: digit-loop lemmas -/

theorem b58DigitsAux_zero : ∀ fuel, b58DigitsAux fuel 0 = [] := by
  intro fuel
  cases fuel with
  | zero => rfl
  | succ f => simp [b58DigitsAux]

theorem ofD58_b58DigitsAux : ∀ (fuel n : Nat), n < 58 ^ fuel →
    ofD58 (b58DigitsAux fuel n) = n := by
  intro fuel
  induction fuel with
  | zero => intro n h; simp at h; simp [h, b58DigitsAux, ofD58]
  | succ f ih =>
    intro n h
    by_cases hz : n = 0
    · simp [hz, b58DigitsAux, ofD58]
    · rw [b58DigitsAux, if_neg hz, ofD58]
      rw [ih (n / 58) (by
        have : n < 58 ^ f * 58 := by rw [← pow_succ]; exact h
        omega)]
      omega

theorem b58DigitsAux_lt : ∀ (fuel n : Nat), ∀ d ∈ b58DigitsAux fuel n, d < 58 := by
  intro fuel
  induction fuel with
  | zero => intro n d hd; simp [b58DigitsAux] at hd
  | succ f ih =>
    intro n d hd
    by_cases hz : n = 0
    · simp [hz, b58DigitsAux] at hd
    · rw [b58DigitsAux, if_neg hz] at hd
      rcases List.mem_cons.mp hd with h | h
      · omega
      · exact ih (n / 58) d h

theorem b58DigitsAux_last : ∀ (fuel n : Nat), 0 < n → n < 58 ^ fuel →
    ∃ ds0 dl, b58DigitsAux fuel n = ds0 ++ [dl] ∧ dl ≠ 0 ∧ dl < 58 := by
  intro fuel
  induction fuel with
  | zero => intro n h1 h2; simp at h2; omega
  | succ f ih =>
    intro n h1 h2
    rw [b58DigitsAux, if_neg (by omega)]
    by_cases hq : n / 58 = 0
    · refine ⟨[], n % 58, by rw [hq, b58DigitsAux_zero]; rfl, ?_, by omega⟩
      have : n < 58 := by omega
      omega
    · obtain ⟨ds0, dl, hds, hdl, hdl2⟩ := ih (n / 58) (by omega) (by
        have : n < 58 ^ f * 58 := by rw [← pow_succ]; exact h2
        omega)
      exact ⟨n % 58 :: ds0, dl, by rw [hds]; rfl, hdl, hdl2⟩

theorem ofD58_lt (ds : List Nat) (h : ∀ d ∈ ds, d < 58) : ofD58 ds < 58 ^ ds.length := by
  induction ds with
  | nil => simp [ofD58]
  | cons d ds2 ih =>
    rw [ofD58, List.length_cons, pow_succ]
    have hd : d < 58 := h d (by simp)
    have := ih (fun a ha => h a (by simp [ha]))
    calc d + 58 * ofD58 ds2 < 58 + 58 * ofD58 ds2 := by omega
      _ = 58 * (ofD58 ds2 + 1) := by ring
      _ ≤ 58 * 58 ^ ds2.length := Nat.mul_le_mul_left _ (by omega)
      _ = 58 ^ ds2.length * 58 := by ring

theorem foldl58_reverse : ∀ (ds : List Nat),
    ds.reverse.foldl (fun p q => p * 58 + q) 0 = ofD58 ds := by
  intro ds
  induction ds with
  | nil => rfl
  | cons d ds2 ih =>
    rw [List.reverse_cons, List.foldl_append, ofD58]
    show (ds2.reverse.foldl (fun p q => p * 58 + q) 0) * 58 + d = _
    rw [ih]
    ring

/-! ## Base58: alphabet and parsing lemmas -/

theorem alph_findIdx_alphChar : ∀ d, d < 58 →
    alph.findIdx? (fun a => a == alphChar d) = some d := by decide

theorem alphChar_zero : alphChar 0 = '1' := by decide

theorem alphChar_ne_one : ∀ d, d < 58 → d ≠ 0 → alphChar d ≠ '1' := by decide

theorem parseB58_map_alphChar : ∀ (ds : List Nat) (acc : Nat), (∀ d ∈ ds, d < 58) →
    parseB58 acc (ds.map alphChar) =
      Except.ok (ds.foldl (fun p q => p * 58 + q) acc) := by
  intro ds
  induction ds with
  | nil => intro acc _; rfl
  | cons d ds2 ih =>
    intro acc h
    rw [List.map_cons, parseB58, alph_findIdx_alphChar d (h d (by simp))]
    exact ih (acc * 58 + d) (fun a ha => h a (by simp [ha]))

theorem parseB58_error_shape : ∀ (l : List Char) (acc : Nat) (e : JsError),
    parseB58 acc l = Except.error e →
    ∃ c ∈ l, e = JsError.error ("Invalid base58 character: " ++ c.toString) := by
  intro l
  induction l with
  | nil => intro acc e h; exact absurd h (by simp [parseB58])
  | cons c cs ih =>
    intro acc e h
    rw [parseB58] at h
    cases hidx : alph.findIdx? (fun a => a == c) with
    | none =>
      rw [hidx] at h
      cases h
      exact ⟨c, by simp, rfl⟩
    | some i =>
      rw [hidx] at h
      obtain ⟨c2, hc2, he⟩ := ih (acc * 58 + i) e h
      exact ⟨c2, by simp [hc2], he⟩

/-! ## Base58: leading-count lemmas -/

theorem leadingZeroCount_spec (z : Nat) (y : Nat) (t : List Nat) (hy : y ≠ 0) :
    leadingZeroCount (List.replicate z 0 ++ y :: t) = z := by
  induction z with
  | zero => simp [leadingZeroCount, hy]
  | succ z2 ih =>
    rw [List.replicate_succ, List.cons_append, leadingZeroCount, if_pos rfl, ih]

theorem leadingOneCount_replicate_append (z : Nat) (l : List Char) :
    leadingOneCount (List.replicate z '1' ++ l) = z + leadingOneCount l := by
  induction z with
  | zero => simp
  | succ z2 ih =>
    rw [List.replicate_succ, List.cons_append, leadingOneCount, if_pos rfl, ih]
    omega

theorem leadingOneCount_cons_ne (c : Char) (l : List Char) (hc : c ≠ '1') :
    leadingOneCount (c :: l) = 0 := by
  rw [leadingOneCount, if_neg hc]

/-! ## Base58: hex-length and byte-extraction lemmas -/

theorem hexLenAux_zero : ∀ fuel, hexLenAux fuel 0 = 0 := by
  intro fuel
  cases fuel with
  | zero => rfl
  | succ f => simp [hexLenAux]

theorem hexLenAux_bounds : ∀ (fuel n : Nat), 0 < n → n < 16 ^ fuel →
    1 ≤ hexLenAux fuel n ∧ 16 ^ (hexLenAux fuel n - 1) ≤ n ∧ n < 16 ^ hexLenAux fuel n := by
  intro fuel
  induction fuel with
  | zero => intro n h1 h2; simp at h2; omega
  | succ f ih =>
    intro n h1 h2
    rw [hexLenAux, if_neg (by omega)]
    by_cases hq : n / 16 = 0
    · rw [hq, hexLenAux_zero]
      have hn16 : n < 16 := by omega
      exact ⟨by omega, by simpa using h1, by simpa using hn16⟩
    · obtain ⟨ih1, ih2, ih3⟩ := ih (n / 16) (by omega) (by
        have : n < 16 ^ f * 16 := by rw [← pow_succ]; exact h2
        omega)
      refine ⟨by omega, ?_, ?_⟩
      · have : 16 ^ (hexLenAux f (n / 16) + 1 - 1) = 16 * 16 ^ (hexLenAux f (n / 16) - 1) := by
          have he : hexLenAux f (n / 16) + 1 - 1 = (hexLenAux f (n / 16) - 1) + 1 := by omega
          rw [he, pow_succ]
          ring
        rw [this]
        have h16 : 16 * (n / 16) ≤ n := Nat.mul_div_le n 16
        calc 16 * 16 ^ (hexLenAux f (n / 16) - 1) ≤ 16 * (n / 16) :=
              Nat.mul_le_mul_left 16 ih2
          _ ≤ n := h16
      · rw [pow_succ]
        have hstep : n / 16 + 1 ≤ 16 ^ hexLenAux f (n / 16) := by omega
        calc n < 16 * (n / 16) + 16 := by omega
          _ = 16 * (n / 16 + 1) := by ring
          _ ≤ 16 * 16 ^ hexLenAux f (n / 16) := Nat.mul_le_mul_left 16 hstep
          _ = 16 ^ hexLenAux f (n / 16) * 16 := by ring

theorem byteLength_formula (F n L : Nat) (h1 : 0 < n) (hF : n < 16 ^ F)
    (hlb : 256 ^ L ≤ n) (hub : n < 256 ^ (L + 1)) :
    (hexLenAux F n + 1) / 2 = L + 1 := by
  obtain ⟨hh1, hh2, hh3⟩ := hexLenAux_bounds F n h1 hF
  have h256L : (256 : Nat) ^ L = 16 ^ (2 * L) := by
    have : (256 : Nat) = 16 ^ 2 := by norm_num
    rw [this, ← pow_mul]
  have h256L1 : (256 : Nat) ^ (L + 1) = 16 ^ (2 * L + 2) := by
    have h2 : (256 : Nat) = 16 ^ 2 := by norm_num
    rw [h2, ← pow_mul, Nat.mul_succ]
  have hlow : 2 * L < hexLenAux F n := by
    by_contra hcon
    push_neg at hcon
    have : (16 : Nat) ^ hexLenAux F n ≤ 16 ^ (2 * L) :=
      Nat.pow_le_pow_right (by omega) hcon
    rw [← h256L] at this
    omega
  have hhigh : hexLenAux F n - 1 < 2 * L + 2 := by
    by_contra hcon
    push_neg at hcon
    have : (16 : Nat) ^ (2 * L + 2) ≤ 16 ^ (hexLenAux F n - 1) :=
      Nat.pow_le_pow_right (by omega) hcon
    rw [← h256L1] at this
    omega
  omega

theorem natToBytesFixed_bytesToNat : ∀ (b : List Nat), (∀ x ∈ b, x < 256) →
    natToBytesFixed b.length (bytesToNat b) = b := by
  intro b
  induction b with
  | nil => intro _; rfl
  | cons x xs ih =>
    intro hb
    have hx : x < 256 := hb x (by simp)
    have hxs : ∀ a ∈ xs, a < 256 := fun a ha => hb a (by simp [ha])
    have hrest : bytesToNat xs < 256 ^ xs.length := bytesToNat_lt xs hxs
    rw [natToBytesFixed, List.length_cons, List.range_succ_eq_map, List.map_cons,
      List.map_map]
    congr 1
    · rw [bytesToNat_cons]
      have hsub : xs.length + 1 - 1 - 0 = xs.length := by omega
      rw [hsub]
      have hre : x * 256 ^ xs.length + bytesToNat xs =
          bytesToNat xs + 256 ^ xs.length * x := by ring
      rw [hre, Nat.add_mul_div_left _ _ (pow_pos (by omega) _), Nat.div_eq_of_lt hrest]
      omega
    · have hcongr : List.map
          ((fun j => bytesToNat (x :: xs) / 256 ^ (xs.length + 1 - 1 - j) % 256) ∘ Nat.succ)
          (List.range xs.length) =
          List.map (fun j => bytesToNat xs / 256 ^ (xs.length - 1 - j) % 256)
            (List.range xs.length) := by
        apply List.map_congr_left
        intro j hj
        have hjlt : j < xs.length := List.mem_range.mp hj
        show bytesToNat (x :: xs) / 256 ^ (xs.length + 1 - 1 - (j + 1)) % 256 = _
        rw [bytesToNat_cons]
        have hsub2 : xs.length + 1 - 1 - (j + 1) = xs.length - 1 - j := by omega
        rw [hsub2]
        have hexp : 256 ^ xs.length = 256 ^ (xs.length - 1 - j) * 256 ^ (j + 1) := by
          rw [← pow_add]
          congr 1
          omega
        rw [hexp]
        have hre : x * (256 ^ (xs.length - 1 - j) * 256 ^ (j + 1)) + bytesToNat xs =
            bytesToNat xs + 256 ^ (xs.length - 1 - j) * (x * 256 ^ (j + 1)) := by ring
        rw [hre, Nat.add_mul_div_left _ _ (pow_pos (by omega) _)]
        have hmod2 : (bytesToNat xs / 256 ^ (xs.length - 1 - j) + x * 256 ^ (j + 1)) % 256 =
            bytesToNat xs / 256 ^ (xs.length - 1 - j) % 256 := by
          have hx2 : x * 256 ^ (j + 1) = x * 256 ^ j * 256 := by
            rw [pow_succ]
            ring
          rw [hx2, Nat.add_mul_mod_self_right]
        rw [hmod2]
      rw [hcongr]
      exact ih hxs

/-! ## Base58: the round-trip -/

theorem base58_roundtrip_core (z y : Nat) (t : List Nat) (hy : y ≠ 0)
    (hb : ∀ x ∈ y :: t, x < 256) :
    base58Decode (base58Encode (List.replicate z 0 ++ y :: t)) =
      Except.ok (List.replicate z 0 ++ y :: t) := by
  have hy1 : 1 ≤ y := by omega
  have hn_lb : 256 ^ t.length ≤ bytesToNat (y :: t) := by
    rw [bytesToNat_cons]
    calc (256 : Nat) ^ t.length = 1 * 256 ^ t.length := by ring
      _ ≤ y * 256 ^ t.length := Nat.mul_le_mul_right _ hy1
      _ ≤ y * 256 ^ t.length + bytesToNat t := Nat.le_add_right _ _
  have hn_pos : 0 < bytesToNat (y :: t) :=
    lt_of_lt_of_le (pow_pos (by omega) t.length) hn_lb
  have hn_ub : bytesToNat (y :: t) < 256 ^ (t.length + 1) := by
    have := bytesToNat_lt (y :: t) hb
    simpa using this
  have hdata_n : bytesToNat (List.replicate z 0 ++ y :: t) = bytesToNat (y :: t) :=
    bytesToNat_zeros_append z (y :: t)
  have hlen_data : (List.replicate z 0 ++ y :: t).length = z + (t.length + 1) := by simp
  have h58_256 : ∀ (k : Nat), (256 : Nat) ^ k ≤ 58 ^ (2 * k) := by
    intro k
    calc (256 : Nat) ^ k ≤ 3364 ^ k := Nat.pow_le_pow_left (by omega) k
      _ = (58 ^ 2) ^ k := by norm_num
      _ = 58 ^ (2 * k) := by rw [← pow_mul]
  have hfuel2 : bytesToNat (y :: t) < 58 ^ (2 * (z + (t.length + 1))) := by
    calc bytesToNat (y :: t) < 256 ^ (t.length + 1) := hn_ub
      _ ≤ 58 ^ (2 * (t.length + 1)) := h58_256 _
      _ ≤ 58 ^ (2 * (z + (t.length + 1))) := Nat.pow_le_pow_right (by omega) (by omega)
  have hfuel : bytesToNat (y :: t) <
      58 ^ (2 * (List.replicate z 0 ++ y :: t).length) := by
    rw [hlen_data]
    exact hfuel2
  set ds := b58DigitsAux (2 * (List.replicate z 0 ++ y :: t).length) (bytesToNat (y :: t))
    with hds
  have h_ofD : ofD58 ds = bytesToNat (y :: t) := ofD58_b58DigitsAux _ _ hfuel
  have h_dslt : ∀ d ∈ ds, d < 58 := b58DigitsAux_lt _ _
  obtain ⟨ds0, dl, hds_eq, hdl_ne, hdl_lt⟩ := b58DigitsAux_last _ _ hn_pos hfuel
  rw [← hds] at hds_eq
  have hrev : ds.reverse = dl :: ds0.reverse := by
    rw [hds_eq, List.reverse_append]
    rfl
  have hlzc : leadingZeroCount (List.replicate z 0 ++ y :: t) = z :=
    leadingZeroCount_spec z y t hy
  have henc : base58Encode (List.replicate z 0 ++ y :: t) =
      (List.replicate z 0 ++ ds.reverse).map alphChar := by
    rw [base58Encode]
    simp only [hdata_n, ← hds]
    rw [if_neg (by omega), hlzc, List.reverse_append, ← List.map_reverse,
      List.reverse_replicate, List.map_append, List.map_replicate, alphChar_zero]
  have hdigall : ∀ d ∈ List.replicate z 0 ++ ds.reverse, d < 58 := by
    intro d hd
    rcases List.mem_append.mp hd with h | h
    · have := List.eq_of_mem_replicate h
      omega
    · exact h_dslt d (List.mem_reverse.mp h)
  have hval : (List.replicate z 0 ++ ds.reverse).foldl (fun p q => p * 58 + q) 0 =
      bytesToNat (y :: t) := by
    rw [foldl_base_zeros_append 58, foldl58_reverse, h_ofD]
  have hloc : leadingOneCount ((List.replicate z 0 ++ ds.reverse).map alphChar) = z := by
    rw [List.map_append, List.map_replicate, alphChar_zero, hrev, List.map_cons,
      leadingOneCount_replicate_append,
      leadingOneCount_cons_ne _ _ (alphChar_ne_one dl hdl_lt hdl_ne)]
    omega
  have hlen_chars : ((List.replicate z 0 ++ ds.reverse).map alphChar).length =
      z + ds.length := by simp
  have hn_16 : bytesToNat (y :: t) <
      16 ^ (2 * ((List.replicate z 0 ++ ds.reverse).map alphChar).length) := by
    rw [hlen_chars]
    calc bytesToNat (y :: t) = ofD58 ds := h_ofD.symm
      _ < 58 ^ ds.length := ofD58_lt ds h_dslt
      _ ≤ 256 ^ ds.length := Nat.pow_le_pow_left (by omega) _
      _ = 16 ^ (2 * ds.length) := by
          rw [show (256 : Nat) = 16 ^ 2 by norm_num, ← pow_mul]
      _ ≤ 16 ^ (2 * (z + ds.length)) := Nat.pow_le_pow_right (by omega) (by omega)
  have hbl : (hexLenAux (2 * ((List.replicate z 0 ++ ds.reverse).map alphChar).length)
      (bytesToNat (y :: t)) + 1) / 2 = t.length + 1 :=
    byteLength_formula _ _ t.length hn_pos hn_16 hn_lb hn_ub
  have hfix : natToBytesFixed (t.length + 1) (bytesToNat (y :: t)) = y :: t := by
    have := natToBytesFixed_bytesToNat (y :: t) hb
    simpa using this
  have hne_nil : ((List.replicate z 0 ++ ds.reverse).map alphChar).isEmpty = false := by
    rw [hrev]
    simp
  rw [henc, base58Decode, hne_nil]
  simp only [Bool.false_eq_true, if_false]
  rw [parseB58_map_alphChar _ 0 hdigall, hval]
  simp only [hloc, hbl, hfix]
  rw [if_neg (by omega)]

theorem leading_zero_decomposition : ∀ (b : List Nat), (∃ x ∈ b, x ≠ 0) →
    ∃ y t, b = List.replicate (leadingZeroCount b) 0 ++ y :: t ∧ y ≠ 0 := by
  intro b
  induction b with
  | nil => intro h; obtain ⟨x, hx, _⟩ := h; simp at hx
  | cons a rest ih =>
    intro h
    obtain ⟨x, hx, hxne⟩ := h
    by_cases ha : a = 0
    · subst ha
      have hxrest : x ∈ rest := by
        rcases List.mem_cons.mp hx with heq | hm
        · exact absurd heq hxne
        · exact hm
      obtain ⟨y, t, heq, hy⟩ := ih ⟨x, hxrest, hxne⟩
      refine ⟨y, t, ?_, hy⟩
      rw [leadingZeroCount, if_pos rfl, List.replicate_succ, List.cons_append]
      rw [← heq]
    · exact ⟨a, rest, by rw [leadingZeroCount, if_neg ha]; rfl, ha⟩

/-- Claim C6 counterexample: the empty byte sequence does not round-trip,
because base58Encode collapses every all-zero input (the empty one included)
to the single character 1, which decodes to the single byte 0. -/
theorem base58_roundtrip_counterexample :
    base58Encode [] = ['1'] ∧ base58Decode ['1'] = Except.ok [0] ∧
    base58Decode (base58Encode []) ≠ Except.ok ([] : List Nat) :=
  ⟨rfl, rfl, by decide⟩

/-- Claim C6 (amended): base58Decode inverts base58Encode on every byte
sequence containing at least one nonzero byte (leading zero bytes mapping
one-for-one to leading 1 characters); every all-zero byte sequence (the empty
one included) encodes to the single character 1, which decodes to the single
byte 0, so only the sequence 0x00 itself round-trips among those. -/
theorem base58_roundtrip_amended :
    (∀ (b : List Nat), (∀ x ∈ b, x < 256) → (∃ x ∈ b, x ≠ 0) →
      base58Decode (base58Encode b) = Except.ok b) ∧
    (∀ (b : List Nat), (∀ x ∈ b, x = 0) →
      base58Encode b = ['1'] ∧ base58Decode (base58Encode b) = Except.ok [0]) := by
  constructor
  · intro b hb hnz
    obtain ⟨y, t, heq, hy⟩ := leading_zero_decomposition b hnz
    rw [heq]
    refine base58_roundtrip_core _ y t hy ?_
    intro x hx
    refine hb x ?_
    rw [heq]
    exact List.mem_append_right _ hx
  · intro b hz
    have hzero : bytesToNat b = 0 := bytesToNat_all_zero b hz
    have henc : base58Encode b = ['1'] := by
      simp [base58Encode, hzero]
    refine ⟨henc, ?_⟩
    rw [henc]
    rfl

/-- Witness for the amended C6 at concrete byte sequences. -/
theorem base58_roundtrip_amended_witness :
    base58Decode (base58Encode [0, 7]) = Except.ok [0, 7] ∧
    base58Encode [0, 0] = ['1'] ∧ base58Decode (base58Encode [0, 0]) = Except.ok [0] :=
  ⟨base58_roundtrip_amended.1 [0, 7] (by decide) ⟨7, by decide, by decide⟩,
   (base58_roundtrip_amended.2 [0, 0] (by decide)).1,
   (base58_roundtrip_amended.2 [0, 0] (by decide)).2⟩

/-! ## did:key round-trip (claim C2) -/

/-- Claim C2: for every 32-byte public key, didToPublicKey recovers exactly
the key from the DID produced by publicKeyToDid. -/
theorem did_roundtrip (k : List Nat) (hk : k.length = 32) (hb : ∀ x ∈ k, x < 256) :
    ∃ did, publicKeyToDid k = Except.ok did ∧ didToPublicKey did = Except.ok k := by
  refine ⟨didPrefix ++ base58Encode (0xed :: 0x01 :: k), ?_, ?_⟩
  · rw [publicKeyToDid, if_neg (by omega)]
  · have hpre : didPrefix.isPrefixOf (didPrefix ++ base58Encode (0xed :: 0x01 :: k)) = true :=
      List.isPrefixOf_iff_prefix.mpr (List.prefix_append _ _)
    rw [didToPublicKey, if_pos hpre]
    have hdrop : (didPrefix ++ base58Encode (0xed :: 0x01 :: k)).drop 9 =
        base58Encode (0xed :: 0x01 :: k) := by
      have h9 : didPrefix.length = 9 := rfl
      rw [← h9, List.drop_left]
    rw [hdrop]
    have hdec : base58Decode (base58Encode (0xed :: 0x01 :: k)) =
        Except.ok (0xed :: 0x01 :: k) := by
      have := base58_roundtrip_core 0 0xed (0x01 :: k) (by omega) (by
        intro x hx
        rcases List.mem_cons.mp hx with h | h
        · omega
        · rcases List.mem_cons.mp h with h2 | h2
          · omega
          · have := hb x h2
            omega)
      simpa using this
    rw [hdec]
    have hcond : ¬((0xed :: 0x01 :: k).getD 0 256 ≠ 0xed ∨
        (0xed :: 0x01 :: k).getD 1 256 ≠ 0x01) := by
      simp
    show (if (0xed :: 0x01 :: k).getD 0 256 ≠ 0xed ∨ (0xed :: 0x01 :: k).getD 1 256 ≠ 0x01
        then Except.error (JsError.error "Invalid multicodec prefix - expected Ed25519")
        else
          if ((0xed :: 0x01 :: k).drop 2).length ≠ 32 then
            Except.error (JsError.error "Invalid public key length")
          else Except.ok ((0xed :: 0x01 :: k).drop 2)) = Except.ok k
    rw [if_neg hcond]
    show (if k.length ≠ 32 then Except.error (JsError.error "Invalid public key length")
      else Except.ok k) = Except.ok k
    rw [if_neg (by omega)]

/-- Witness for C2 at the all-zero 32-byte public key. -/
theorem did_roundtrip_witness :
    ∃ did, publicKeyToDid (List.replicate 32 0) = Except.ok did ∧
      didToPublicKey did = Except.ok (List.replicate 32 0) :=
  did_roundtrip (List.replicate 32 0) (by decide) (by decide)

/-! ## didToPublicKey error taxonomy (claim C9) -/

theorem base58Decode_error_shape (s : List Char) (e : JsError)
    (h : base58Decode s = Except.error e) :
    ∃ c ∈ s, e = JsError.error ("Invalid base58 character: " ++ c.toString) := by
  rw [base58Decode] at h
  by_cases hs : s.isEmpty = true
  · rw [if_pos hs] at h
    exact absurd h (by simp)
  · rw [if_neg hs] at h
    cases hp : parseB58 0 s with
    | error e2 =>
      rw [hp] at h
      dsimp only at h
      obtain ⟨c, hc, he⟩ := parseB58_error_shape s 0 e2 hp
      refine ⟨c, hc, ?_⟩
      injection h with h2
      rw [← h2]
      exact he
    | ok num =>
      rw [hp] at h
      dsimp only at h
      by_cases hz : num = 0
      · rw [if_pos hz] at h
        exact absurd h (by simp)
      · rw [if_neg hz] at h
        exact absurd h (by simp)

theorem mc_prefix_iff (l : List Nat) :
    ([0xed, 0x01] <+: l) ↔ (l.getD 0 256 = 0xed ∧ l.getD 1 256 = 0x01) := by
  constructor
  · intro h
    obtain ⟨r, hr⟩ := h
    subst hr
    exact ⟨rfl, rfl⟩
  · intro h
    obtain ⟨h1, h2⟩ := h
    cases l with
    | nil =>
      rw [List.getD_nil] at h1
      exact absurd h1 (by decide)
    | cons a l2 =>
      cases l2 with
      | nil =>
        rw [List.getD_cons_succ, List.getD_nil] at h2
        exact absurd h2 (by decide)
      | cons b l3 =>
        rw [List.getD_cons_zero] at h1
        rw [List.getD_cons_succ, List.getD_cons_zero] at h2
        subst h1
        subst h2
        exact ⟨l3, rfl⟩

/-- Claim C9 (amended): didToPublicKey fails with the invalid-format error
exactly when the literal prefix is missing; otherwise it propagates the
invalid-base58-character error of base58Decode when the body has a character
outside the alphabet; otherwise it fails with the multicodec error when the
decoded body does not begin with 0xed 0x01; otherwise with the key-length
error when the decoded body is not exactly 34 bytes; and on well-formed input
it returns the trailing 32 bytes. -/
theorem didToPublicKey_error_taxonomy (did : List Char) :
    (¬ didPrefix <+: did →
      didToPublicKey did = Except.error
        (JsError.error "Invalid did:key format - must start with \x27did:key:z\x27")) ∧
    (∀ e, didPrefix <+: did → base58Decode (did.drop 9) = Except.error e →
      didToPublicKey did = Except.error e ∧
      ∃ c ∈ did.drop 9, e = JsError.error ("Invalid base58 character: " ++ c.toString)) ∧
    (∀ decoded, didPrefix <+: did → base58Decode (did.drop 9) = Except.ok decoded →
      ¬ [0xed, 0x01] <+: decoded →
      didToPublicKey did =
        Except.error (JsError.error "Invalid multicodec prefix - expected Ed25519")) ∧
    (∀ decoded, didPrefix <+: did → base58Decode (did.drop 9) = Except.ok decoded →
      [0xed, 0x01] <+: decoded → decoded.length ≠ 34 →
      didToPublicKey did = Except.error (JsError.error "Invalid public key length")) ∧
    (∀ decoded, didPrefix <+: did → base58Decode (did.drop 9) = Except.ok decoded →
      [0xed, 0x01] <+: decoded → decoded.length = 34 →
      didToPublicKey did = Except.ok (decoded.drop 2)) := by
  refine ⟨?_, ?_, ?_, ?_, ?_⟩
  · intro hnp
    rw [didToPublicKey, if_neg]
    intro hb
    exact hnp (List.isPrefixOf_iff_prefix.mp hb)
  · intro e hp hdec
    rw [didToPublicKey, if_pos (List.isPrefixOf_iff_prefix.mpr hp), hdec]
    exact ⟨rfl, base58Decode_error_shape _ e hdec⟩
  · intro decoded hp hdec hmc
    rw [didToPublicKey, if_pos (List.isPrefixOf_iff_prefix.mpr hp), hdec]
    have hcond : decoded.getD 0 256 ≠ 0xed ∨ decoded.getD 1 256 ≠ 0x01 := by
      by_cases h0 : decoded.getD 0 256 = 0xed
      · right
        intro h1
        exact hmc ((mc_prefix_iff decoded).mpr ⟨h0, h1⟩)
      · left
        exact h0
    show (if decoded.getD 0 256 ≠ 0xed ∨ decoded.getD 1 256 ≠ 0x01
        then Except.error (JsError.error "Invalid multicodec prefix - expected Ed25519")
        else
          if (decoded.drop 2).length ≠ 32 then
            Except.error (JsError.error "Invalid public key length")
          else Except.ok (decoded.drop 2)) = _
    rw [if_pos hcond]
  · intro decoded hp hdec hmc hlen
    rw [didToPublicKey, if_pos (List.isPrefixOf_iff_prefix.mpr hp), hdec]
    obtain ⟨r, hr⟩ := hmc
    subst hr
    have hrlen : (([0xed, 0x01] ++ r).drop 2).length = r.length := rfl
    have hlen2 : ([0xed, 0x01] ++ r).length = r.length + 2 := by
      simp
    show (if ([0xed, 0x01] ++ r).getD 0 256 ≠ 0xed ∨ ([0xed, 0x01] ++ r).getD 1 256 ≠ 0x01
        then Except.error (JsError.error "Invalid multicodec prefix - expected Ed25519")
        else
          if (([0xed, 0x01] ++ r).drop 2).length ≠ 32 then
            Except.error (JsError.error "Invalid public key length")
          else Except.ok (([0xed, 0x01] ++ r).drop 2)) = _
    rw [if_neg (by simp), if_pos (by rw [hrlen]; omega)]
  · intro decoded hp hdec hmc hlen
    rw [didToPublicKey, if_pos (List.isPrefixOf_iff_prefix.mpr hp), hdec]
    obtain ⟨r, hr⟩ := hmc
    subst hr
    have hrlen : (([0xed, 0x01] ++ r).drop 2).length = r.length := rfl
    have hlen2 : ([0xed, 0x01] ++ r).length = r.length + 2 := by
      simp
    show (if ([0xed, 0x01] ++ r).getD 0 256 ≠ 0xed ∨ ([0xed, 0x01] ++ r).getD 1 256 ≠ 0x01
        then Except.error (JsError.error "Invalid multicodec prefix - expected Ed25519")
        else
          if (([0xed, 0x01] ++ r).drop 2).length ≠ 32 then
            Except.error (JsError.error "Invalid public key length")
          else Except.ok (([0xed, 0x01] ++ r).drop 2)) = _
    rw [if_neg (by simp), if_neg (by rw [hrlen]; omega)]

/-- Claim C9 counterexample: on the input did:key:z0 the function fails with a
fourth error, the invalid-base58-character error, which is none of the three
errors named by the claim. -/
theorem didToPublicKey_fourth_error :
    didToPublicKey ("did:key:z0".toList) =
      Except.error (JsError.error "Invalid base58 character: 0") ∧
    JsError.error "Invalid base58 character: 0" ≠
      JsError.error "Invalid did:key format - must start with \x27did:key:z\x27" ∧
    JsError.error "Invalid base58 character: 0" ≠
      JsError.error "Invalid multicodec prefix - expected Ed25519" ∧
    JsError.error "Invalid base58 character: 0" ≠
      JsError.error "Invalid public key length" :=
  ⟨by decide, by decide, by decide, by decide⟩

/-- Witness for the amended C9: the invalid-format case at a concrete input. -/
theorem didToPublicKey_error_taxonomy_witness :
    didToPublicKey ['x'] = Except.error
      (JsError.error "Invalid did:key format - must start with \x27did:key:z\x27") :=
  (didToPublicKey_error_taxonomy ['x']).1 (by decide)

end Anchor
